import Mathlib

/-!
Shallow embedding of the real-time meeting translator core
(`src/App.tsx`, `src/types.ts`): the playback scheduler, the transcript
aggregator, and the session controller state machine, with theorems
checking the specified properties against the embedded code.

Times on the output device clock (`AudioContext.currentTime`, buffer
durations) are modelled as rationals; `Date.now()` millisecond timestamps
as naturals; JavaScript strings as Lean strings.
-/

namespace MeetingTranslator

/-- `AppStatus` from `src/types.ts`: Idle, Connecting..., Listening, Error. -/
inductive AppStatus
  | idle
  | connecting
  | listening
  | error
deriving DecidableEq, Repr

/-- `TranscriptionTurn` from `src/types.ts`: `{id: number, chinese: string,
english: string}`.  In the code `id` is a `Date.now()` millisecond value. -/
structure TranscriptionTurn where
  id : Nat
  chinese : String
  english : String
deriving DecidableEq, Repr

/-- State of the playback scheduler: `nextStartTimeRef.current` and
`audioSourcesRef.current` from `App.tsx`.  Handles are identified by a
counter; `stoppedHandles` records the sources on which `.stop()` has been
called (by the interruption handler or by `cleanUpAudio`). -/
structure SchedState where
  nextStartTime : ℚ
  activeHandles : List Nat
  stoppedHandles : List Nat
  nextHandleId : Nat
deriving DecidableEq, Repr

/-- Initial scheduler state: `nextStartTimeRef` starts at 0, no sources. -/
def initSched : SchedState := ⟨0, [], [], 0⟩

/-- `App.tsx` lines 181-205 (audio branch of `onmessage`): computes
`nextStartTime = Math.max(nextStartTimeRef.current, ctx.currentTime)`,
starts the source there, advances `nextStartTimeRef` by the buffer's
duration and adds the source to the active set.  Returns the start time
together with the new state. -/
def schedule (s : SchedState) (now dur : ℚ) : ℚ × SchedState :=
  let start := max s.nextStartTime now
  (start,
   { s with
      nextStartTime := start + dur
      activeHandles := s.activeHandles ++ [s.nextHandleId]
      nextHandleId := s.nextHandleId + 1 })

/-- Runs a sequence of `schedule` calls, each with its device-clock reading
and decoded buffer duration, returning the `(start, duration)` pairs in
submission order and the final scheduler state. -/
def runSchedule (s : SchedState) : List (ℚ × ℚ) → List (ℚ × ℚ) × SchedState
  | [] => ([], s)
  | (now, dur) :: rest =>
      let r := schedule s now dur
      let rr := runSchedule r.2 rest
      ((r.1, dur) :: rr.1, rr.2)

/-- `App.tsx` lines 207-211 (`interrupted` branch) and lines 101-103 of
`cleanUpAudio`: stop every active source, clear the set, reset
`nextStartTimeRef` to 0. -/
def flush (s : SchedState) : SchedState :=
  { s with
      nextStartTime := 0
      activeHandles := []
      stoppedHandles := s.stoppedHandles ++ s.activeHandles }

lemma runSchedule_head_start_ge (ops : List (ℚ × ℚ)) (s : SchedState) :
    ∀ p ∈ (runSchedule s ops).1.head?, s.nextStartTime ≤ p.1 := by
  cases ops with
  | nil => simp [runSchedule]
  | cons op rest =>
      obtain ⟨now, dur⟩ := op
      simp only [runSchedule, schedule, List.head?_cons, Option.mem_def,
        Option.some.injEq]
      rintro p rfl
      exact le_max_left _ _

lemma runSchedule_chain (ops : List (ℚ × ℚ)) (hdur : ∀ p ∈ ops, 0 ≤ p.2) :
    ∀ s : SchedState,
      List.Chain' (fun a b : ℚ × ℚ => a.1 + a.2 ≤ b.1 ∧ a.1 ≤ b.1)
        (runSchedule s ops).1 := by
  induction ops with
  | nil => intro s; simp [runSchedule]
  | cons op rest ih =>
      intro s
      obtain ⟨now, dur⟩ := op
      have hd : (0:ℚ) ≤ dur := hdur (now, dur) (List.mem_cons_self _ _)
      have hrest : ∀ p ∈ rest, (0:ℚ) ≤ p.2 :=
        fun p hp => hdur p (List.mem_cons_of_mem _ hp)
      simp only [runSchedule]
      rw [List.chain'_cons']
      refine ⟨?_, ih hrest _⟩
      intro y hy
      have h1 := runSchedule_head_start_ge rest (schedule s now dur).2 y hy
      have h2 : (schedule s now dur).2.nextStartTime
          = max s.nextStartTime now + dur := rfl
      rw [h2] at h1
      refine ⟨h1, le_trans (le_add_of_nonneg_right hd) h1⟩

/-- C1: each scheduled buffer starts at `max(nextStartTime, deviceCurrentTime())`,
`nextStartTime` is then set to that start plus the buffer's duration, start
times of a run from `nextStartTime = 0` are non-decreasing and never overlap
(`start_{i+1} >= start_i + duration_i`, here even unconditionally), and the
concrete scenario: a 2.0 s buffer at device time 0 starts at 0 and a
following 1.0 s buffer at device time 0.5 starts at 2.0. -/
theorem schedule_gapless_no_overlap (ops : List (ℚ × ℚ))
    (hdur : ∀ p ∈ ops, 0 ≤ p.2) :
    (∀ (s : SchedState) (now dur : ℚ),
        (schedule s now dur).1 = max s.nextStartTime now ∧
        (schedule s now dur).2.nextStartTime = (schedule s now dur).1 + dur) ∧
    List.Chain' (fun a b : ℚ × ℚ => a.1 ≤ b.1) (runSchedule initSched ops).1 ∧
    List.Chain' (fun a b : ℚ × ℚ => a.1 + a.2 ≤ b.1)
      (runSchedule initSched ops).1 ∧
    (runSchedule initSched [((0:ℚ), (2:ℚ)), ((1/2 : ℚ), (1:ℚ))]).1.map Prod.fst
      = [0, 2] := by
  have hc := runSchedule_chain ops hdur initSched
  refine ⟨fun s now dur => ⟨rfl, rfl⟩, ?_, ?_, ?_⟩
  · exact hc.imp (fun a b h => h.2)
  · exact hc.imp (fun a b h => h.1)
  · norm_num [runSchedule, schedule, initSched, max_def]

/-- Witness for `schedule_gapless_no_overlap` at the two-buffer scenario. -/
theorem schedule_gapless_no_overlap_witness :
    (∀ p ∈ [((0:ℚ), (2:ℚ)), ((1/2 : ℚ), (1:ℚ))], 0 ≤ p.2) ∧
    List.Chain' (fun a b : ℚ × ℚ => a.1 + a.2 ≤ b.1)
      (runSchedule initSched [((0:ℚ), (2:ℚ)), ((1/2 : ℚ), (1:ℚ))]).1 :=
  ⟨by decide,
   (schedule_gapless_no_overlap [((0:ℚ), (2:ℚ)), ((1/2 : ℚ), (1:ℚ))]
      (by decide)).2.2.1⟩

/-- The JavaScript whitespace class recognized by `String.prototype.trim`
(the WhiteSpace and LineTerminator productions, the code points relevant
here). -/
def jsWhitespace (c : Char) : Bool :=
  c = ' ' || c = '\t' || c = '\n' || c = '\r' ||
  c = '\x0b' || c = '\x0c' || c = '\u00A0' || c = '\uFEFF' ||
  c = '\u2028' || c = '\u2029'

/-- JavaScript `String.prototype.trim`: drop leading and trailing
whitespace. -/
def jsTrim (s : String) : String :=
  ⟨((s.data.dropWhile jsWhitespace).reverse.dropWhile jsWhitespace).reverse⟩

/-- The full observable state of the `App` component: the four React state
values (`status`, `transcriptionHistory`, `currentChinese`,
`currentEnglish`), the mutable refs (`currentChineseRef`,
`currentEnglishRef`, `sessionPromiseRef`, `streamRef`, `audioContextRef`,
`processorRef`, `outputAudioContextRef`), and the playback scheduler state
(`nextStartTimeRef`, `audioSourcesRef`).  Refs holding external resources
are modelled by whether they are non-null. -/
structure AppState where
  status : AppStatus
  transcriptionHistory : List TranscriptionTurn
  currentChinese : String
  currentEnglish : String
  currentChineseRef : String
  currentEnglishRef : String
  sessionOpen : Bool
  streamActive : Bool
  inputCtx : Bool
  processorActive : Bool
  outputCtx : Bool
  sched : SchedState
deriving DecidableEq, Repr

/-- `cleanUpAudio` (`App.tsx` lines 82-105): stops the capture tracks and
nulls `streamRef`, disconnects and nulls the processor, closes and nulls
both audio contexts, stops every queued playback source, clears the
source set and resets `nextStartTimeRef` to 0.  It touches neither the
status, the history, the transcript accumulators nor the session ref. -/
def cleanUpAudio (s : AppState) : AppState :=
  { s with
      streamActive := false
      processorActive := false
      inputCtx := false
      outputCtx := false
      sched := flush s.sched }

/-- `handleStopListening` (`App.tsx` lines 107-120): closes and nulls the
session if one is pending/open, runs `cleanUpAudio`, and finally sets the
status to Idle unconditionally. -/
def handleStopListening (s : AppState) : AppState :=
  { cleanUpAudio { s with sessionOpen := false } with status := AppStatus.idle }

/-- The `onerror` callback (`App.tsx` lines 228-233): sets status to Error,
writes the error detail into the English display channel, and then invokes
`handleStopListening` (whose tail sets status to Idle). -/
def onerror (s : AppState) (msg : String) : AppState :=
  handleStopListening
    { s with status := AppStatus.error, currentEnglish := "Error: " ++ msg }

/-- The `onclose` callback (`App.tsx` lines 234-238): keeps Error if the
status is currently Error, otherwise sets Idle; always runs
`cleanUpAudio`. -/
def onclose (s : AppState) : AppState :=
  { cleanUpAudio s with
      status := if s.status = AppStatus.error then AppStatus.error
                else AppStatus.idle }

/-- The `onopen` callback (`App.tsx` lines 151-167): sets status to
Listening and wires up the input audio context and the script processor. -/
def onopen (s : AppState) : AppState :=
  { s with
      status := AppStatus.listening
      inputCtx := true
      processorActive := true }

/-- `handleStartListening` (`App.tsx` lines 123-248), parametrised by
whether `getUserMedia` grants the capture device.  It first sets status to
Connecting and clears the transcript state and the history; on grant it
acquires the stream, creates the output context and initiates the session
connect; on denial the catch block sets status to Error, writes the error
detail to the English display channel and runs `cleanUpAudio`.  Returns
the new state together with the list of status values assigned during the
run, in order. -/
def handleStartListening (s : AppState) (deviceGranted : Bool)
    (errMsg : String) : AppState × List AppStatus :=
  let s1 := { s with
                status := AppStatus.connecting
                currentChinese := ""
                currentEnglish := ""
                currentChineseRef := ""
                currentEnglishRef := ""
                transcriptionHistory := [] }
  if deviceGranted then
    ({ s1 with streamActive := true, outputCtx := true, sessionOpen := true },
     [AppStatus.connecting])
  else
    (cleanUpAudio { s1 with
                      status := AppStatus.error
                      currentEnglish := "Error: " ++ errMsg },
     [AppStatus.connecting, AppStatus.error])

/-- A transcript track: `inputTranscription` (source, Chinese) or
`outputTranscription` (target, English). -/
inductive Track
  | source
  | target
deriving DecidableEq, Repr

/-- Appending one transcript fragment (`App.tsx` lines 169-179): the text
is concatenated onto the track's display state and its ref accumulator. -/
def appendFragment (s : AppState) : Track → String → AppState
  | Track.source, t =>
      { s with
          currentChinese := s.currentChinese ++ t
          currentChineseRef := s.currentChineseRef ++ t }
  | Track.target, t =>
      { s with
          currentEnglish := s.currentEnglish ++ t
          currentEnglishRef := s.currentEnglishRef ++ t }

/-- The `turnComplete` branch (`App.tsx` lines 213-225): if either ref
accumulator has non-whitespace content, a turn `{id: Date.now(), chinese,
english}` is appended to the history; in every case both display strings
and both ref accumulators are cleared.  Returns the emitted turn, if any,
together with the new state. -/
def completeTurn (s : AppState) (nowMs : Nat) :
    Option TranscriptionTurn × AppState :=
  let fc := s.currentChineseRef
  let fe := s.currentEnglishRef
  let turnOpt : Option TranscriptionTurn :=
    if jsTrim fc ≠ "" ∨ jsTrim fe ≠ "" then
      some ⟨nowMs, fc, fe⟩
    else none
  (turnOpt,
   { s with
      transcriptionHistory :=
        match turnOpt with
        | some t => s.transcriptionHistory ++ [t]
        | none => s.transcriptionHistory
      currentChinese := ""
      currentEnglish := ""
      currentChineseRef := ""
      currentEnglishRef := "" })

/-- One inbound server message (`LiveServerMessage` as consumed by
`onmessage`): optional source-transcription text, optional
target-transcription text, optional inline audio payload (represented by
the decoded buffer's duration), the `interrupted` flag and the
`turnComplete` flag. -/
structure ServerMessage where
  inputTranscription : Option String
  outputTranscription : Option String
  audioData : Option ℚ
  interrupted : Bool
  turnComplete : Bool
deriving DecidableEq, Repr

/-- The audio branch of `onmessage` (`App.tsx` lines 181-205): if the
message carries inline audio data and the output context is non-null, the
decoded buffer is scheduled at the device's current time. -/
def scheduleAudio (s : AppState) (m : ServerMessage) (deviceTime : ℚ) :
    AppState :=
  match m.audioData with
  | some dur =>
      if s.outputCtx then { s with sched := (schedule s.sched deviceTime dur).2 }
      else s
  | none => s

/-- The part of the `onmessage` callback before the `turnComplete` branch
(`App.tsx` lines 169-211), in the code's order: append the
input-transcription fragment, append the output-transcription fragment,
schedule inline audio, flush on `interrupted`. -/
def preTurn (s : AppState) (m : ServerMessage) (deviceTime : ℚ) : AppState :=
  let s1 := match m.inputTranscription with
    | some t => appendFragment s Track.source t
    | none => s
  let s2 := match m.outputTranscription with
    | some t => appendFragment s1 Track.target t
    | none => s1
  let s3 := scheduleAudio s2 m deviceTime
  if m.interrupted then { s3 with sched := flush s3.sched } else s3

/-- The `onmessage` callback (`App.tsx` lines 168-226): the fragment,
audio and interruption branches followed by the `turnComplete` branch.
`deviceTime` is the output context's `currentTime` at the audio branch;
`nowMs` is `Date.now()` at the turn-complete branch. -/
def onmessage (s : AppState) (m : ServerMessage) (deviceTime : ℚ)
    (nowMs : Nat) : AppState :=
  if m.turnComplete then (completeTurn (preTurn s m deviceTime) nowMs).2
  else preTurn s m deviceTime

/-- The component's initial state: status Idle, empty history and
accumulators, no resources held. -/
def emptyState : AppState :=
  { status := AppStatus.idle
    transcriptionHistory := []
    currentChinese := ""
    currentEnglish := ""
    currentChineseRef := ""
    currentEnglishRef := ""
    sessionOpen := false
    streamActive := false
    inputCtx := false
    processorActive := false
    outputCtx := false
    sched := initSched }

/-- A representative mid-session state: Listening, session open, capture
and playback resources live, two sources queued on the scheduler. -/
def sampleListening : AppState :=
  { status := AppStatus.listening
    transcriptionHistory := [⟨1, "hi", "ok"⟩]
    currentChinese := "c"
    currentEnglish := "e"
    currentChineseRef := "c"
    currentEnglishRef := "e"
    sessionOpen := true
    streamActive := true
    inputCtx := true
    processorActive := true
    outputCtx := true
    sched := ⟨3, [0, 1], [], 2⟩ }

/-- C5: `flush` empties the active set, marks every previously active
handle stopped, resets `nextStartTime` to 0, and a subsequent `schedule`
at device time `t ≥ 0` starts exactly at `t`, no longer anchored to the
pre-flush timeline. -/
theorem flush_resets_scheduler (s : SchedState) (t dur : ℚ) (ht : 0 ≤ t) :
    (flush s).activeHandles = [] ∧
    (flush s).nextStartTime = 0 ∧
    (∀ h ∈ s.activeHandles, h ∈ (flush s).stoppedHandles) ∧
    (schedule (flush s) t dur).1 = t := by
  refine ⟨rfl, rfl, ?_, ?_⟩
  · intro h hh
    simp only [flush, List.mem_append]
    exact Or.inr hh
  · simp only [schedule, flush]
    exact max_eq_right ht

/-- Witness for `flush_resets_scheduler`: scenario C, two handles active,
flush, then a schedule at device time 5 starts at 5. -/
theorem flush_resets_scheduler_witness :
    (0:ℚ) ≤ 5 ∧
    ((flush sampleListening.sched).activeHandles = [] ∧
     (flush sampleListening.sched).nextStartTime = 0 ∧
     (∀ h ∈ sampleListening.sched.activeHandles,
        h ∈ (flush sampleListening.sched).stoppedHandles) ∧
     (schedule (flush sampleListening.sched) 5 1).1 = 5) :=
  ⟨by norm_num, flush_resets_scheduler sampleListening.sched 5 1 (by norm_num)⟩

/-- C9: the remote `onclose` handler keeps the status at Error when it is
currently Error and otherwise sets it to Idle, and in both cases performs
the full audio teardown (capture stream, processor and both contexts
released, all playback sources stopped, scheduler reset). -/
theorem onclose_status_and_teardown (s : AppState) :
    (onclose s).status
      = (if s.status = AppStatus.error then AppStatus.error
         else AppStatus.idle) ∧
    (onclose s).streamActive = false ∧
    (onclose s).processorActive = false ∧
    (onclose s).inputCtx = false ∧
    (onclose s).outputCtx = false ∧
    (onclose s).sched.activeHandles = [] ∧
    (onclose s).sched.nextStartTime = 0 ∧
    (∀ h ∈ s.sched.activeHandles, h ∈ (onclose s).sched.stoppedHandles) := by
  refine ⟨rfl, rfl, rfl, rfl, rfl, rfl, rfl, ?_⟩
  intro h hh
  simp only [onclose, cleanUpAudio, flush, List.mem_append]
  exact Or.inr hh

/-- C7: `handleStopListening` is idempotent — a second call (made while
the status is already Idle and the session ref already cleared by the
first call) leaves every component of the state exactly as the first call
left it. -/
theorem stop_idempotent (s : AppState) :
    handleStopListening (handleStopListening s) = handleStopListening s := by
  simp [handleStopListening, cleanUpAudio, flush]

/-- C3 fails on the code: after a remote error event on a live Listening
session, the `onerror` handler sets the status to Error but then invokes
`handleStopListening`, whose unconditional trailing `setStatus(IDLE)`
moves the status to Idle — the status does not remain Error; likewise a
direct `stop()` from the Error state moves the status to Idle rather than
being a no-op.  This contradicts the `onclose` handler's own
Error-preserving guard and the UI's Error-only message, so the code
contradicts its own design. -/
theorem onerror_ends_idle_not_error :
    (onerror sampleListening "boom").status = AppStatus.idle ∧
    (onerror sampleListening "boom").status ≠ AppStatus.error ∧
    (handleStopListening { sampleListening with status := AppStatus.error }).status
      = AppStatus.idle := by
  refine ⟨rfl, ?_, rfl⟩
  decide

/-- C4 as stated fails on the code: a `start()` run that fails at capture
acquisition does pass through Connecting — `handleStartListening` assigns
Connecting as its very first statement, before requesting the device, so
the status trace of the failing run is [Connecting, Error], and Connecting
occurs in it. -/
theorem start_failure_passes_through_connecting :
    (handleStartListening emptyState false "denied").2
      = [AppStatus.connecting, AppStatus.error] ∧
    AppStatus.connecting ∈ (handleStartListening emptyState false "denied").2 := by
  refine ⟨rfl, ?_⟩
  decide

/-- C4 amended: a `start()` run from Idle that fails at capture
acquisition assigns exactly the statuses Connecting then Error (so it
ends in Error and never reaches Listening), and no remote session is
opened. -/
theorem start_failure_to_error_no_session (s : AppState) (errMsg : String)
    (h1 : s.status = AppStatus.idle) (h2 : s.sessionOpen = false) :
    (handleStartListening s false errMsg).2
      = [AppStatus.connecting, AppStatus.error] ∧
    (handleStartListening s false errMsg).1.status = AppStatus.error ∧
    AppStatus.listening ∉ (handleStartListening s false errMsg).2 ∧
    (handleStartListening s false errMsg).1.sessionOpen = false := by
  refine ⟨rfl, rfl, ?_, ?_⟩
  · rw [show (handleStartListening s false errMsg).2
        = [AppStatus.connecting, AppStatus.error] from rfl]
    decide
  · simp only [handleStartListening, cleanUpAudio, Bool.false_eq_true,
      if_false]
    exact h2

/-- Witness for `start_failure_to_error_no_session` at the initial
state. -/
theorem start_failure_to_error_no_session_witness :
    (emptyState.status = AppStatus.idle ∧ emptyState.sessionOpen = false) ∧
    ((handleStartListening emptyState false "denied").2
        = [AppStatus.connecting, AppStatus.error] ∧
     (handleStartListening emptyState false "denied").1.status
        = AppStatus.error ∧
     AppStatus.listening ∉ (handleStartListening emptyState false "denied").2 ∧
     (handleStartListening emptyState false "denied").1.sessionOpen = false) :=
  ⟨⟨rfl, rfl⟩, start_failure_to_error_no_session emptyState "denied" rfl rfl⟩

/-- Concatenation, in order, of the fragments appended to one track. -/
def trackText (tr : Track) : List (Track × String) → String
  | [] => ""
  | (t, x) :: rest => (if t = tr then x else "") ++ trackText tr rest

/-- A sequence of `appendFragment` calls applied in order. -/
def appendFrags (s : AppState) (frags : List (Track × String)) : AppState :=
  frags.foldl (fun s p => appendFragment s p.1 p.2) s

lemma appendFragment_hist (s : AppState) (t : Track) (x : String) :
    (appendFragment s t x).transcriptionHistory = s.transcriptionHistory := by
  cases t <;> rfl

lemma appendFrags_spec (frags : List (Track × String)) :
    ∀ s : AppState,
      (appendFrags s frags).currentChineseRef
          = s.currentChineseRef ++ trackText Track.source frags ∧
      (appendFrags s frags).currentEnglishRef
          = s.currentEnglishRef ++ trackText Track.target frags ∧
      (appendFrags s frags).transcriptionHistory = s.transcriptionHistory := by
  induction frags with
  | nil =>
      intro s
      exact ⟨(String.append_empty _).symm, (String.append_empty _).symm, rfl⟩
  | cons p rest ih =>
      intro s
      obtain ⟨t, x⟩ := p
      obtain ⟨h1, h2, h3⟩ := ih (appendFragment s t x)
      have estep : appendFrags s ((t, x) :: rest)
          = appendFrags (appendFragment s t x) rest := rfl
      rw [estep]
      cases t with
      | source =>
          refine ⟨?_, ?_, ?_⟩
          · rw [h1]
            show s.currentChineseRef ++ x ++ trackText Track.source rest
              = s.currentChineseRef
                  ++ trackText Track.source ((Track.source, x) :: rest)
            rw [String.append_assoc]
            simp [trackText]
          · rw [h2]
            show s.currentEnglishRef ++ trackText Track.target rest
              = s.currentEnglishRef
                  ++ trackText Track.target ((Track.source, x) :: rest)
            simp [trackText]
          · rw [h3, appendFragment_hist]
      | target =>
          refine ⟨?_, ?_, ?_⟩
          · rw [h1]
            show s.currentChineseRef ++ trackText Track.source rest
              = s.currentChineseRef
                  ++ trackText Track.source ((Track.target, x) :: rest)
            simp [trackText]
          · rw [h2]
            show s.currentEnglishRef ++ x ++ trackText Track.target rest
              = s.currentEnglishRef
                  ++ trackText Track.target ((Track.target, x) :: rest)
            rw [String.append_assoc]
            simp [trackText]
          · rw [h3, appendFragment_hist]

lemma completeTurn_none (s : AppState) (n : Nat)
    (h1 : jsTrim s.currentChineseRef = "")
    (h2 : jsTrim s.currentEnglishRef = "") :
    (completeTurn s n).1 = none ∧
    (completeTurn s n).2.transcriptionHistory = s.transcriptionHistory := by
  have hcond : ¬(jsTrim s.currentChineseRef ≠ ""
      ∨ jsTrim s.currentEnglishRef ≠ "") := by
    push_neg
    exact ⟨h1, h2⟩
  unfold completeTurn
  simp only [if_neg hcond]
  exact ⟨trivial, trivial⟩

lemma completeTurn_some (s : AppState) (n : Nat)
    (h : jsTrim s.currentChineseRef ≠ "" ∨ jsTrim s.currentEnglishRef ≠ "") :
    (completeTurn s n).1
      = some ⟨n, s.currentChineseRef, s.currentEnglishRef⟩ ∧
    (completeTurn s n).2.transcriptionHistory
      = s.transcriptionHistory
          ++ [⟨n, s.currentChineseRef, s.currentEnglishRef⟩] := by
  unfold completeTurn
  simp only [if_pos h]
  exact ⟨trivial, trivial⟩

/-- C2: starting from empty accumulators, after any sequence of
`appendFragment` calls, the turn-complete branch returns no turn and
leaves the history untouched when both accumulated texts trim to
empty/whitespace-only; otherwise it returns a turn whose texts are the
exact per-track concatenations of the appended fragments (one non-empty
track is enough) and appends exactly that turn to the history, growing it
by one; in both cases the accumulators end up cleared. -/
theorem complete_turn_aggregates (s : AppState)
    (frags : List (Track × String)) (nowMs : Nat)
    (h1 : s.currentChineseRef = "") (h2 : s.currentEnglishRef = "") :
    (if jsTrim (trackText Track.source frags) = ""
        ∧ jsTrim (trackText Track.target frags) = "" then
      (completeTurn (appendFrags s frags) nowMs).1 = none ∧
      (completeTurn (appendFrags s frags) nowMs).2.transcriptionHistory
        = s.transcriptionHistory
    else
      (completeTurn (appendFrags s frags) nowMs).1
        = some ⟨nowMs, trackText Track.source frags,
                trackText Track.target frags⟩ ∧
      (completeTurn (appendFrags s frags) nowMs).2.transcriptionHistory
        = s.transcriptionHistory
            ++ [⟨nowMs, trackText Track.source frags,
                 trackText Track.target frags⟩] ∧
      (completeTurn (appendFrags s frags) nowMs).2.transcriptionHistory.length
        = s.transcriptionHistory.length + 1) ∧
    (completeTurn (appendFrags s frags) nowMs).2.currentChineseRef = "" ∧
    (completeTurn (appendFrags s frags) nowMs).2.currentEnglishRef = "" := by
  obtain ⟨hc, he, hh⟩ := appendFrags_spec frags s
  rw [h1, String.empty_append] at hc
  rw [h2, String.empty_append] at he
  refine ⟨?_, rfl, rfl⟩
  split_ifs with hcond
  · have := completeTurn_none (appendFrags s frags) nowMs
      (by rw [hc]; exact hcond.1) (by rw [he]; exact hcond.2)
    exact ⟨this.1, this.2.trans hh⟩
  · rw [not_and_or] at hcond
    have := completeTurn_some (appendFrags s frags) nowMs
      (by rw [hc, he]; exact hcond)
    rw [hc, he] at this
    refine ⟨this.1, this.2.trans ?_, ?_⟩
    · rw [hh]
    · rw [this.2, hh]
      simp

/-- Fragments of end-to-end scenario A: one source fragment and one
target fragment. -/
def cexFrags : List (Track × String) :=
  [(Track.source, "你好"), (Track.target, "Hello")]

/-- Witness for `complete_turn_aggregates`: scenario A — appending 你好 on
the source track and Hello on the target track and completing the turn
emits exactly Turn{你好, Hello} and the history grows to length 1. -/
theorem complete_turn_aggregates_witness :
    (emptyState.currentChineseRef = "" ∧ emptyState.currentEnglishRef = "") ∧
    (completeTurn (appendFrags emptyState cexFrags) 7).1
      = some ⟨7, "你好", "Hello"⟩ ∧
    (completeTurn (appendFrags emptyState cexFrags) 7).2.transcriptionHistory
      = [⟨7, "你好", "Hello"⟩] ∧
    (completeTurn (appendFrags emptyState cexFrags) 7).2.currentChineseRef
      = "" ∧
    (completeTurn (appendFrags emptyState cexFrags) 7).2.currentEnglishRef
      = "" := by
  have h := complete_turn_aggregates emptyState cexFrags 7 rfl rfl
  rw [if_neg (by decide)] at h
  refine ⟨⟨rfl, rfl⟩, ?_, ?_, h.2.1, h.2.2⟩
  · rw [h.1.1]
    decide
  · rw [h.1.2.1]
    decide

/-- C10: whenever a message carries the `turnComplete` signal, both
in-progress display strings and both ref accumulators are cleared by
`onmessage` — also when no turn was emitted because both accumulators
were whitespace-only. -/
theorem turn_complete_clears_accumulators (s : AppState) (m : ServerMessage)
    (dt : ℚ) (n : Nat) (h : m.turnComplete = true) :
    (onmessage s m dt n).currentChinese = "" ∧
    (onmessage s m dt n).currentEnglish = "" ∧
    (onmessage s m dt n).currentChineseRef = "" ∧
    (onmessage s m dt n).currentEnglishRef = "" := by
  unfold onmessage
  rw [h]
  simp only [if_true]
  exact ⟨rfl, rfl, rfl, rfl⟩

/-- A server message carrying one source-track fragment and the
`turnComplete` signal. -/
def turnMsg (frag : String) : ServerMessage :=
  { inputTranscription := some frag
    outputTranscription := none
    audioData := none
    interrupted := false
    turnComplete := true }

/-- A server message with empty transcriptions and the `turnComplete`
signal: the whitespace-only case, in which no turn is emitted. -/
def blankTurnMsg : ServerMessage := turnMsg " "

/-- Witness for `turn_complete_clears_accumulators`: the empty/whitespace
case — no turn is emitted, yet the accumulators are cleared. -/
theorem turn_complete_clears_accumulators_witness :
    blankTurnMsg.turnComplete = true ∧
    ((onmessage emptyState blankTurnMsg 0 7).currentChinese = "" ∧
     (onmessage emptyState blankTurnMsg 0 7).currentEnglish = "" ∧
     (onmessage emptyState blankTurnMsg 0 7).currentChineseRef = "" ∧
     (onmessage emptyState blankTurnMsg 0 7).currentEnglishRef = "") ∧
    (onmessage emptyState blankTurnMsg 0 7).transcriptionHistory = [] :=
  ⟨rfl, turn_complete_clears_accumulators emptyState blankTurnMsg 0 7 rfl,
   by decide⟩

/-- C6 fails on the code: turn identifiers are `Date.now()` millisecond
values, so two distinct turns completed within the same millisecond (here
both at millisecond 5) receive the same identifier. -/
theorem duplicate_turn_ids :
    (onmessage (onmessage emptyState (turnMsg "a") 0 5)
        (turnMsg "b") 0 5).transcriptionHistory
      = [⟨5, "a", ""⟩, ⟨5, "b", ""⟩] ∧
    (⟨5, "a", ""⟩ : TranscriptionTurn) ≠ ⟨5, "b", ""⟩ ∧
    TranscriptionTurn.id ⟨5, "a", ""⟩ = TranscriptionTurn.id ⟨5, "b", ""⟩ := by
  refine ⟨by decide, by decide, rfl⟩

lemma completeTurn_hist_cases (s : AppState) (n : Nat) :
    (completeTurn s n).2.transcriptionHistory = s.transcriptionHistory ∨
    ∃ c e : String, (completeTurn s n).2.transcriptionHistory
        = s.transcriptionHistory ++ [⟨n, c, e⟩] := by
  by_cases h : jsTrim s.currentChineseRef ≠ "" ∨ jsTrim s.currentEnglishRef ≠ ""
  · exact Or.inr ⟨_, _, (completeTurn_some s n h).2⟩
  · push_neg at h
    exact Or.inl (completeTurn_none s n h.1 h.2).2

lemma scheduleAudio_hist (s : AppState) (m : ServerMessage) (dt : ℚ) :
    (scheduleAudio s m dt).transcriptionHistory = s.transcriptionHistory := by
  unfold scheduleAudio
  cases m.audioData with
  | none => rfl
  | some dur =>
      by_cases hctx : s.outputCtx = true
      · simp only [if_pos hctx]
      · simp only [if_neg hctx]

lemma preTurn_hist (s : AppState) (m : ServerMessage) (dt : ℚ) :
    (preTurn s m dt).transcriptionHistory = s.transcriptionHistory := by
  unfold preTurn
  cases hi : m.inputTranscription <;> cases ho : m.outputTranscription <;>
    cases hint : m.interrupted <;>
    simp [scheduleAudio_hist, appendFragment_hist, hint]

lemma onmessage_hist (s : AppState) (m : ServerMessage) (dt : ℚ) (n : Nat) :
    (onmessage s m dt n).transcriptionHistory = s.transcriptionHistory ∨
    ∃ c e : String, (onmessage s m dt n).transcriptionHistory
        = s.transcriptionHistory ++ [⟨n, c, e⟩] := by
  unfold onmessage
  by_cases htc : m.turnComplete = true
  · simp only [if_pos htc]
    rcases completeTurn_hist_cases (preTurn s m dt) n with h | ⟨c, e, h⟩
    · exact Or.inl (h.trans (preTurn_hist s m dt))
    · exact Or.inr ⟨c, e, by rw [h, preTurn_hist]⟩
  · simp only [if_neg htc]
    exact Or.inl (preTurn_hist s m dt)

/-- One inbound message event with its clock readings: the server message,
the output context's `currentTime`, and `Date.now()`. -/
structure MsgEvent where
  msg : ServerMessage
  deviceTime : ℚ
  nowMs : Nat
deriving DecidableEq, Repr

/-- Processing a list of inbound messages in delivery order. -/
def runMessages (s : AppState) : List MsgEvent → AppState
  | [] => s
  | e :: rest => runMessages (onmessage s e.msg e.deviceTime e.nowMs) rest

lemma runMessages_ids_sublist (evts : List MsgEvent) :
    ∀ s : AppState, ∃ l : List Nat,
      (runMessages s evts).transcriptionHistory.map TranscriptionTurn.id
        = s.transcriptionHistory.map TranscriptionTurn.id ++ l ∧
      l.Sublist (evts.map MsgEvent.nowMs) := by
  induction evts with
  | nil =>
      intro s
      exact ⟨[], by simp [runMessages], List.nil_sublist _⟩
  | cons e rest ih =>
      intro s
      obtain ⟨l, hl, hsub⟩ := ih (onmessage s e.msg e.deviceTime e.nowMs)
      have estep : runMessages s (e :: rest)
          = runMessages (onmessage s e.msg e.deviceTime e.nowMs) rest := rfl
      rcases onmessage_hist s e.msg e.deviceTime e.nowMs with h | ⟨c, en, h⟩
      · refine ⟨l, ?_, ?_⟩
        · rw [estep, hl, h]
        · exact List.Sublist.cons _ hsub
      · refine ⟨e.nowMs :: l, ?_, List.Sublist.cons₂ _ hsub⟩
        rw [estep, hl, h]
        simp

/-- C6 amended: every emitted turn's identifier is the `Date.now()` value
at its completion, so across a run of inbound messages starting from an
empty history the identifiers in the history are pairwise distinct
provided the `Date.now()` readings of the messages are pairwise distinct;
two turns completed in the same millisecond share an identifier. -/
theorem turn_ids_nodup_of_distinct_times (s : AppState)
    (evts : List MsgEvent) (h1 : s.transcriptionHistory = [])
    (h2 : (evts.map MsgEvent.nowMs).Nodup) :
    ((runMessages s evts).transcriptionHistory.map TranscriptionTurn.id).Nodup := by
  obtain ⟨l, hl, hsub⟩ := runMessages_ids_sublist evts s
  rw [hl, h1]
  simp only [List.map_nil, List.nil_append]
  exact h2.sublist hsub

/-- Witness for `turn_ids_nodup_of_distinct_times`: two turns completed at
milliseconds 5 and 6 have distinct identifiers. -/
theorem turn_ids_nodup_of_distinct_times_witness :
    (emptyState.transcriptionHistory = [] ∧
     (([⟨turnMsg "a", 0, 5⟩, ⟨turnMsg "b", 0, 6⟩] : List MsgEvent).map
        MsgEvent.nowMs).Nodup) ∧
    ((runMessages emptyState
        [⟨turnMsg "a", 0, 5⟩, ⟨turnMsg "b", 0, 6⟩]).transcriptionHistory.map
          TranscriptionTurn.id).Nodup :=
  ⟨⟨rfl, by decide⟩,
   turn_ids_nodup_of_distinct_times emptyState
     [⟨turnMsg "a", 0, 5⟩, ⟨turnMsg "b", 0, 6⟩] rfl (by decide)⟩

/-- The operations that can act on the component state during and around
a session: an inbound message, the open acknowledgement, a remote error, a
remote close, a manual stop, and a start request. -/
inductive Event
  | message (m : ServerMessage) (deviceTime : ℚ) (nowMs : Nat)
  | opened
  | remoteError (msg : String)
  | remoteClose
  | stopReq
  | startReq (granted : Bool) (errMsg : String)
deriving DecidableEq, Repr

/-- Whether an event is a `start()` request. -/
def Event.isStart : Event → Bool
  | .startReq _ _ => true
  | _ => false

/-- Dispatch of one event to the corresponding handler of `App.tsx`. -/
def step (s : AppState) : Event → AppState
  | .message m dt n => onmessage s m dt n
  | .opened => onopen s
  | .remoteError msg => onerror s msg
  | .remoteClose => onclose s
  | .stopReq => handleStopListening s
  | .startReq g em => (handleStartListening s g em).1

/-- C8: the turn history is append-only within a session — every event
other than a `start()` request either leaves the history unchanged or
appends exactly one turn at its end; a mid-session remote error preserves
the accumulated history; and a `start()` request clears the history for
the new session. -/
theorem history_append_only (s : AppState) (e : Event) :
    (e.isStart = false →
       (step s e).transcriptionHistory = s.transcriptionHistory ∨
       ∃ t, (step s e).transcriptionHistory = s.transcriptionHistory ++ [t]) ∧
    (∀ msg, (step s (Event.remoteError msg)).transcriptionHistory
        = s.transcriptionHistory) ∧
    (e.isStart = true → (step s e).transcriptionHistory = []) := by
  refine ⟨?_, fun msg => rfl, ?_⟩
  · intro hns
    cases e with
    | message m dt n =>
        rcases onmessage_hist s m dt n with h | ⟨c, en, h⟩
        · exact Or.inl h
        · exact Or.inr ⟨_, h⟩
    | opened => exact Or.inl rfl
    | remoteError msg => exact Or.inl rfl
    | remoteClose => exact Or.inl rfl
    | stopReq => exact Or.inl rfl
    | startReq g em => exact absurd hns (by simp [Event.isStart])
  · intro hst
    cases e with
    | message m dt n => exact absurd hst (by simp [Event.isStart])
    | opened => exact absurd hst (by simp [Event.isStart])
    | remoteError msg => exact absurd hst (by simp [Event.isStart])
    | remoteClose => exact absurd hst (by simp [Event.isStart])
    | stopReq => exact absurd hst (by simp [Event.isStart])
    | startReq g em => cases g <;> rfl

/-- Witness for `history_append_only`: a remote close leaves the history
of the sample mid-session state unchanged, and a granted start request
clears it. -/
theorem history_append_only_witness :
    (Event.remoteClose.isStart = false ∧
     ((step sampleListening Event.remoteClose).transcriptionHistory
        = sampleListening.transcriptionHistory ∨
      ∃ t, (step sampleListening Event.remoteClose).transcriptionHistory
        = sampleListening.transcriptionHistory ++ [t])) ∧
    ((Event.startReq true "x").isStart = true ∧
     (step sampleListening (Event.startReq true "x")).transcriptionHistory
        = []) :=
  ⟨⟨rfl, (history_append_only sampleListening Event.remoteClose).1 rfl⟩,
   ⟨rfl, (history_append_only sampleListening
           (Event.startReq true "x")).2.2 rfl⟩⟩

end MeetingTranslator
